import Mathlib

/-!
Verification of the resumable-session questionnaire engine
(`sideloading_questionnaire.py`).

The Python source is shallowly embedded: strings are Lean `String`
(a structure over `List Char`), file contents are lists of lines, the
interactive input stream is a list of raw input strings, and the
append-only answer log is a list of written lines.  Python's `str.strip`,
`str.split(sep, maxsplit)`, `str.upper`, `str.isdigit` and `int(...)` are
modelled character-by-character below (restricted to ASCII: the
questionnaire's command keywords and the log format are ASCII, so
Python's extra Unicode whitespace/digit/case handling is out of scope and
noted at each definition).
-/

/-- Characters removed by Python `str.strip()` (the ASCII whitespace set;
Python additionally strips some Unicode spaces, which never occur in the
engine's keywords or log syntax). -/
def pyWS (c : Char) : Bool :=
  c = ' ' || c = '\t' || c = '\n' || c = '\r' || c = '\x0b' || c = '\x0c'

/-- Model of Python `str.strip()` on the character list: remove leading and
trailing whitespace. -/
def stripChars (cs : List Char) : List Char :=
  List.rdropWhile pyWS (List.dropWhile pyWS cs)

/-- Model of Python `str.strip()`. -/
def pyStrip (s : String) : String :=
  String.mk (stripChars s.data)

/-- Model of Python `str.upper()` (ASCII case mapping; the engine only
compares the result against the ASCII keywords `QUIT` and `SKIP`). -/
def pyUpper (s : String) : String :=
  String.mk (s.data.map Char.toUpper)

/-- Split a character list at the first occurrence of `c`: returns the
characters before it and, when `c` occurs, the characters after it. -/
def breakAtChar (c : Char) : List Char → List Char × Option (List Char)
  | [] => ([], none)
  | x :: xs =>
    if x = c then ([], some xs)
    else
      let r := breakAtChar c xs
      (x :: r.1, r.2)

/-- Model of Python `s.split(c, 2)` for a one-character separator: at most
the first two occurrences of `c` separate, yielding up to three parts. -/
def split2Chars (c : Char) (cs : List Char) : List (List Char) :=
  match breakAtChar c cs with
  | (p0, none) => [p0]
  | (p0, some r1) =>
    match breakAtChar c r1 with
    | (p1, none) => [p0, p1]
    | (p1, some r2) => [p0, p1, r2]

/-- Split a character list at the first occurrence of the substring `sep`
(`none` when `sep` does not occur).  Used to model Python
`s.split(sep, 1)` for the two-character separator `". "`. -/
def breakAtSeq (sep : List Char) : List Char → Option (List Char × List Char)
  | [] => none
  | x :: xs =>
    if List.isPrefixOf sep (x :: xs) then some ([], List.drop sep.length (x :: xs))
    else
      match breakAtSeq sep xs with
      | none => none
      | some (p, r) => some (x :: p, r)

/-- Decimal value of a digit string (most significant first). -/
def digitsVal (cs : List Char) : Nat :=
  cs.foldl (fun a c => 10 * a + (c.toNat - 48)) 0

/-- Decimal digits of `n`, most significant first, computed with explicit
fuel so that the definition is structurally recursive. -/
def natCharsAux : Nat → Nat → List Char
  | 0, _ => []
  | fuel + 1, n =>
    if n < 10 then [Char.ofNat (48 + n)]
    else natCharsAux fuel (n / 10) ++ [Char.ofNat (48 + n % 10)]

/-- Model of Python `str(n)` for a non-negative integer: its decimal
digits without leading zeros. -/
def natChars (n : Nat) : List Char :=
  natCharsAux (n + 1) n

/-- Model of Python `int(s)` for a base-10 literal: optional surrounding
whitespace, optional sign, then a non-empty run of decimal digits;
anything else raises `ValueError`, modelled as `none`.  (Python also
accepts underscores between digits and Unicode digits; neither can be
produced by this program's own writer, whose indices come from `str(n)`.) -/
def pyIntChars (cs : List Char) : Option Int :=
  match stripChars cs with
  | [] => none
  | x :: ds =>
    if x = '+' then
      if ds ≠ [] ∧ ∀ c ∈ ds, c.isDigit then some (Int.ofNat (digitsVal ds)) else none
    else if x = '-' then
      if ds ≠ [] ∧ ∀ c ∈ ds, c.isDigit then some (-Int.ofNat (digitsVal ds)) else none
    else if ∀ c ∈ x :: ds, c.isDigit then some (Int.ofNat (digitsVal (x :: ds))) else none

/-- Model of `load_questions` (source lines 84-100) for a readable source:
`self.questions = [line.strip() for line in file if line.strip()]`.
The returned flag is the function's Python return value, which for a
readable file is `True` regardless of how many questions survive the
filter (file-missing and I/O failure, which return `False`, are outside
the in-memory lines model). -/
def load_questions (rawLines : List String) : Bool × List String :=
  (true, rawLines.filterMap fun l => if pyStrip l = "" then none else some (pyStrip l))

/-- `start_questionnaire_session`'s opening guard (source line 140):
`if not self.questions: ... return` — the session refuses to start
exactly when the loaded question list is empty. -/
def session_starts (questions : List String) : Bool :=
  !questions.isEmpty

/-- The per-line body of `get_last_answered_question`'s loop (source lines
113-122): strip the line; require it non-empty and containing `';'`;
split into at most 3 parts; require at least 3 parts; parse the first
part with `int(...)`.  `none` means the line is silently skipped. -/
def validIndex (rawLine : String) : Option Int :=
  let line := stripChars rawLine.data
  if line ≠ [] ∧ ';' ∈ line then
    let parts := split2Chars ';' line
    if 3 ≤ parts.length then pyIntChars (parts.headD []) else none
  else none

/-- Model of `get_last_answered_question` (source lines 102-127) on the
log's lines: `last_id` starts at 0 and is updated with
`max(last_id, question_id)` for every line that parses; an absent log is
the empty line list. -/
def get_last_answered_question (logLines : List String) : Int :=
  logLines.foldl
    (fun last_id line =>
      match validIndex line with
      | some question_id => max last_id question_id
      | none => last_id)
    0

/-- The resume offset used by `start_questionnaire_session` (source lines
147-148): `start_question = last_answered`.  `toNat` is exact because
`get_last_answered_question` is never negative. -/
def session_start_index (logLines : List String) : Nat :=
  (get_last_answered_question logLines).toNat

/-- The line written by `save_answer` (source line 134):
`f"{question_id};{question};{answer}\n"`. -/
def save_answer_line (question_id : Nat) (question answer : String) : String :=
  String.mk (natChars question_id ++ ';' :: (question.data ++ ';' :: (answer.data ++ ['\n'])))

/-- Model of `save_answer` (source lines 129-136): append one formatted
line to the log (the file is opened in append mode). -/
def save_answer (log : List String) (question_id : Nat) (question answer : String) :
    List String :=
  log ++ [save_answer_line question_id question answer]

/-- Re-parse of one log line into a full `(index, question, answer)`
record: the line handling of `get_last_answered_question` (strip,
non-blank, has `';'`, `split(';', 2)` into exactly 3 parts, `int` first
field), returning all three fields instead of only the index. -/
def parse_answer_line (rawLine : String) : Option (Int × String × String) :=
  let line := stripChars rawLine.data
  if line ≠ [] ∧ ';' ∈ line then
    match split2Chars ';' line with
    | [p0, p1, p2] =>
      match pyIntChars p0 with
      | some i => some (i, String.mk p1, String.mk p2)
      | none => none
    | _ => none
  else none

/-- Display-only stripping of a legacy numeric question label (source
lines 184-186): if `'. '` occurs and the text before its first occurrence
is a non-empty digit run, show only the text after it. -/
def display_text (question_text : String) : String :=
  match breakAtSeq ['.', ' '] question_text.data with
  | none => question_text
  | some (p, r) => if p ≠ [] ∧ ∀ c ∈ p, c.isDigit then String.mk r else question_text

/-- Model of `ask_question`'s input loop (source lines 194-210) acting on
the answer log.  The remaining raw user inputs are a list; the loop
consumes one input per iteration.  Result `some (continueFlag, newLog)`
mirrors the Python return value (`False` = quit) together with the log
state; `none` means the finite input script ran out while the loop was
still re-prompting (the real program blocks for more input). -/
def ask_question (questions : List String) (question_index : Nat) (log : List String) :
    List String → Option (Bool × List String)
  | [] => none
  | rawInput :: rest =>
    let answer := pyStrip rawInput
    if pyUpper answer = "QUIT" then some (false, log)
    else if pyUpper answer = "SKIP" then
      some (true, save_answer log question_index (questions.getD question_index "") "[SKIPPED]")
    else if answer = "" then ask_question questions question_index log rest
    else some (true, save_answer log question_index (questions.getD question_index "") answer)

/-- How one `ask_question` call ends, as signalled to the session loop:
`return True` (continue), `return False` after `QUIT`, or `return False`
after `KeyboardInterrupt` (source lines 198-200 and 212-214; the loop at
line 171 only sees the boolean, the distinction is in the message). -/
inductive StepSignal
  | sContinue
  | sQuit
  | sInterrupt
deriving DecidableEq

/-- Terminal outcome of a session run. -/
inductive SessionOutcome
  | Completed
  | QuitByUser
  | InterruptedByUser
deriving DecidableEq

/-- The session loop body (source lines 170-172):
`for i in range(...): if not self.ask_question(i): break`, recorded as
the list of indices actually asked plus the outcome. -/
def runLoop (ask : Nat → StepSignal) : List Nat → List Nat × SessionOutcome
  | [] => ([], SessionOutcome.Completed)
  | i :: rest =>
    match ask i with
    | StepSignal.sContinue =>
      let r := runLoop ask rest
      (i :: r.1, r.2)
    | StepSignal.sQuit => ([i], SessionOutcome.QuitByUser)
    | StepSignal.sInterrupt => ([i], SessionOutcome.InterruptedByUser)

/-- The session loop over `range(start_question, len(questions))`
(source line 170); `List.range' s d` is `range(s, s + d)`. -/
def runSession (ask : Nat → StepSignal) (numQuestions start : Nat) :
    List Nat × SessionOutcome :=
  runLoop ask (List.range' start (numQuestions - start))

/-- Model of `start_questionnaire_session` (source lines 138-172) with the
per-question interaction abstracted to a step signal: refuse when no
questions are loaded, otherwise derive the resume offset from the log and
run the loop. -/
def start_questionnaire_session (questions : List String) (logLines : List String)
    (ask : Nat → StepSignal) : Option (List Nat × SessionOutcome) :=
  if questions.isEmpty then none
  else some (runSession ask questions.length (session_start_index logLines))

/-! ### Character and digit-string lemmas -/

lemma digitChar_toNat (m : Nat) (h : m < 10) : (Char.ofNat (48 + m)).toNat = 48 + m := by
  interval_cases m <;> rfl

lemma digitChar_isDigit (m : Nat) (h : m < 10) : (Char.ofNat (48 + m)).isDigit = true := by
  interval_cases m <;> rfl

lemma pyWS_false_of_isDigit {c : Char} (h : c.isDigit = true) : pyWS c = false := by
  by_cases h1 : c = ' '
  · subst h1; exact absurd h (by decide)
  by_cases h2 : c = '\t'
  · subst h2; exact absurd h (by decide)
  by_cases h3 : c = '\n'
  · subst h3; exact absurd h (by decide)
  by_cases h4 : c = '\r'
  · subst h4; exact absurd h (by decide)
  by_cases h5 : c = '\x0b'
  · subst h5; exact absurd h (by decide)
  by_cases h6 : c = '\x0c'
  · subst h6; exact absurd h (by decide)
  simp [pyWS, h1, h2, h3, h4, h5, h6]

lemma ne_semi_of_isDigit {c : Char} (h : c.isDigit = true) : c ≠ ';' := by
  intro hc
  subst hc
  exact absurd h (by decide)

lemma ne_plus_of_isDigit {c : Char} (h : c.isDigit = true) : c ≠ '+' := by
  intro hc
  subst hc
  exact absurd h (by decide)

lemma ne_minus_of_isDigit {c : Char} (h : c.isDigit = true) : c ≠ '-' := by
  intro hc
  subst hc
  exact absurd h (by decide)

lemma natCharsAux_ne_nil (fuel n : Nat) : natCharsAux (fuel + 1) n ≠ [] := by
  unfold natCharsAux
  split <;> simp

lemma natChars_ne_nil (n : Nat) : natChars n ≠ [] :=
  natCharsAux_ne_nil n n

lemma natCharsAux_all_digit :
    ∀ fuel n : Nat, n < fuel → ∀ c ∈ natCharsAux fuel n, c.isDigit = true := by
  intro fuel
  induction fuel with
  | zero => intro n hn; omega
  | succ f ih =>
    intro n hn c hc
    unfold natCharsAux at hc
    by_cases h10 : n < 10
    · rw [if_pos h10] at hc
      simp only [List.mem_singleton] at hc
      subst hc
      exact digitChar_isDigit n h10
    · rw [if_neg h10] at hc
      rcases List.mem_append.mp hc with h1 | h2
      · exact ih (n / 10) (by omega) c h1
      · simp only [List.mem_singleton] at h2
        subst h2
        exact digitChar_isDigit (n % 10) (Nat.mod_lt _ (by omega))

lemma natChars_all_digit (n : Nat) : ∀ c ∈ natChars n, c.isDigit = true :=
  natCharsAux_all_digit (n + 1) n (Nat.lt_succ_self n)

lemma digitsVal_append_singleton (cs : List Char) (c : Char) :
    digitsVal (cs ++ [c]) = 10 * digitsVal cs + (c.toNat - 48) := by
  simp [digitsVal, List.foldl_append]

lemma digitsVal_natCharsAux :
    ∀ fuel n : Nat, n < fuel → digitsVal (natCharsAux fuel n) = n := by
  intro fuel
  induction fuel with
  | zero => intro n hn; omega
  | succ f ih =>
    intro n hn
    unfold natCharsAux
    by_cases h10 : n < 10
    · rw [if_pos h10]
      have : (Char.ofNat (48 + n)).toNat = 48 + n := digitChar_toNat n h10
      simp [digitsVal, this]
    · rw [if_neg h10]
      rw [digitsVal_append_singleton]
      have hm : n % 10 < 10 := Nat.mod_lt _ (by omega)
      rw [ih (n / 10) (by omega), digitChar_toNat (n % 10) hm]
      omega

lemma digitsVal_natChars (n : Nat) : digitsVal (natChars n) = n :=
  digitsVal_natCharsAux (n + 1) n (Nat.lt_succ_self n)

lemma semi_not_mem_natChars (n : Nat) : ';' ∉ natChars n := by
  intro h
  exact ne_semi_of_isDigit (natChars_all_digit n ';' h) rfl

/-! ### Strip and split lemmas -/

lemma dropWhile_eq_self_of_forall {p : Char → Bool} :
    ∀ {cs : List Char}, (∀ c ∈ cs, p c = false) → cs.dropWhile p = cs := by
  intro cs h
  cases cs with
  | nil => rfl
  | cons x t => simp [List.dropWhile_cons, h x (List.mem_cons_self x t)]

lemma dropWhile_append_of_not {p : Char → Bool} {y : Char} (hy : p y = false) :
    ∀ (xs ys : List Char), (xs ++ y :: ys).dropWhile p = xs.dropWhile p ++ y :: ys := by
  intro xs ys
  induction xs with
  | nil => simp [List.dropWhile_cons, hy]
  | cons x t ih =>
    by_cases hx : p x = true
    · simp [List.dropWhile_cons, hx, ih]
    · simp [List.dropWhile_cons, hx]

lemma stripChars_eq_self_of_forall {cs : List Char} (h : ∀ c ∈ cs, pyWS c = false) :
    stripChars cs = cs := by
  unfold stripChars
  rw [dropWhile_eq_self_of_forall h]
  rw [List.rdropWhile_eq_self_iff]
  intro hne
  rw [Bool.not_eq_true]
  exact h _ (List.getLast_mem hne)

/-- Stripping the written log line `str(i) ++ ";" ++ q ++ ";" ++ a ++ "\n"`
removes exactly the line terminator and any trailing whitespace of the
answer: the index and question parts are protected by the digits in front
and the separators behind. -/
lemma stripChars_save_line (i : Nat) (q a : List Char) :
    stripChars (natChars i ++ ';' :: (q ++ ';' :: (a ++ ['\n']))) =
      natChars i ++ ';' :: (q ++ ';' :: List.rdropWhile pyWS a) := by
  obtain ⟨x, t, hxt⟩ := List.exists_cons_of_ne_nil (natChars_ne_nil i)
  have hx : pyWS x = false := by
    apply pyWS_false_of_isDigit
    apply natChars_all_digit i
    rw [hxt]
    exact List.mem_cons_self x t
  unfold stripChars
  have hfront :
      (natChars i ++ ';' :: (q ++ ';' :: (a ++ ['\n']))).dropWhile pyWS =
        natChars i ++ ';' :: (q ++ ';' :: (a ++ ['\n'])) := by
    rw [hxt]
    simp [List.dropWhile_cons, hx]
  rw [hfront]
  unfold List.rdropWhile
  have hrev :
      (natChars i ++ ';' :: (q ++ ';' :: (a ++ ['\n']))).reverse =
        '\n' :: (a.reverse ++ ';' :: (q.reverse ++ ';' :: (natChars i).reverse)) := by
    simp
  rw [hrev]
  have hsemi : pyWS ';' = false := by decide
  have hnl : pyWS '\n' = true := by decide
  rw [List.dropWhile_cons, if_pos hnl]
  rw [dropWhile_append_of_not hsemi a.reverse (q.reverse ++ ';' :: (natChars i).reverse)]
  simp

lemma breakAtChar_not_mem {c : Char} :
    ∀ {xs : List Char}, c ∉ xs → breakAtChar c xs = (xs, none) := by
  intro xs
  induction xs with
  | nil => intro _; rfl
  | cons x t ih =>
    intro h
    have hx : ¬x = c := fun he => h (he ▸ List.mem_cons_self x t)
    have ht : c ∉ t := fun hm => h (List.mem_cons_of_mem x hm)
    simp [breakAtChar, hx, ih ht]

lemma breakAtChar_append {c : Char} :
    ∀ {xs : List Char} (ys : List Char), c ∉ xs →
      breakAtChar c (xs ++ c :: ys) = (xs, some ys) := by
  intro xs
  induction xs with
  | nil => intro ys _; simp [breakAtChar]
  | cons x t ih =>
    intro ys h
    have hx : ¬x = c := fun he => h (he ▸ List.mem_cons_self x t)
    have ht : c ∉ t := fun hm => h (List.mem_cons_of_mem x hm)
    simp [breakAtChar, hx, ih ys ht]

lemma breakAtChar_some_of_mem {c : Char} :
    ∀ {zs : List Char}, c ∈ zs → ∃ p r, breakAtChar c zs = (p, some r) := by
  intro zs
  induction zs with
  | nil => intro h; exact absurd h (List.not_mem_nil c)
  | cons z t ih =>
    intro h
    by_cases hz : z = c
    · exact ⟨[], t, by simp [breakAtChar, hz]⟩
    · have ht : c ∈ t := by
        rcases List.mem_cons.mp h with he | hm
        · exact absurd he.symm hz
        · exact hm
      obtain ⟨p, r, hpr⟩ := ih ht
      exact ⟨z :: p, r, by simp [breakAtChar, hz, hpr]⟩

lemma split2Chars_exact {c : Char} {xs q a : List Char} (h0 : c ∉ xs) (h1 : c ∉ q) :
    split2Chars c (xs ++ c :: (q ++ c :: a)) = [xs, q, a] := by
  unfold split2Chars
  rw [breakAtChar_append (q ++ c :: a) h0]
  simp only
  rw [breakAtChar_append a h1]

lemma split2Chars_first {c : Char} {xs z : List Char} (h0 : c ∉ xs) (hz : c ∈ z) :
    ∃ p1 p2, split2Chars c (xs ++ c :: z) = [xs, p1, p2] := by
  unfold split2Chars
  rw [breakAtChar_append z h0]
  dsimp only
  obtain ⟨p, r, hpr⟩ := breakAtChar_some_of_mem hz
  rw [hpr]
  exact ⟨p, r, rfl⟩

lemma pyIntChars_natChars (i : Nat) : pyIntChars (natChars i) = some (Int.ofNat i) := by
  have hdig := natChars_all_digit i
  have hstrip : stripChars (natChars i) = natChars i :=
    stripChars_eq_self_of_forall fun c hc => pyWS_false_of_isDigit (hdig c hc)
  obtain ⟨x, t, hxt⟩ := List.exists_cons_of_ne_nil (natChars_ne_nil i)
  have hxdig : x.isDigit = true := hdig x (by rw [hxt]; exact List.mem_cons_self x t)
  unfold pyIntChars
  rw [hstrip, hxt]
  dsimp only
  rw [if_neg (ne_plus_of_isDigit hxdig)]
  rw [if_neg (ne_minus_of_isDigit hxdig)]
  rw [if_pos (by rw [← hxt]; exact fun c hc => hdig c hc)]
  rw [← hxt, digitsVal_natChars]

/-! ### Parsing written log lines -/

/-- Any line written by `save_answer` parses back to its own index, with no
conditions on the question or answer text: stripping cannot reach past the
answer's trailing whitespace, the first field is always the digit run of
the index, and both separators written by the f-string survive. -/
lemma validIndex_save (i : Nat) (q a : String) :
    validIndex (save_answer_line i q a) = some (Int.ofNat i) := by
  unfold validIndex save_answer_line
  rw [show (String.mk (natChars i ++ ';' :: (q.data ++ ';' :: (a.data ++ ['\n'])))).data =
      natChars i ++ ';' :: (q.data ++ ';' :: (a.data ++ ['\n'])) from rfl]
  rw [stripChars_save_line]
  have hmem : ';' ∈ natChars i ++ ';' :: (q.data ++ ';' :: List.rdropWhile pyWS a.data) := by
    simp
  have hne : natChars i ++ ';' :: (q.data ++ ';' :: List.rdropWhile pyWS a.data) ≠ [] := by
    simp
  rw [if_pos ⟨hne, hmem⟩]
  obtain ⟨p1, p2, hsplit⟩ :=
    split2Chars_first (semi_not_mem_natChars i)
      (show ';' ∈ q.data ++ ';' :: List.rdropWhile pyWS a.data by simp)
  rw [hsplit]
  simp only [List.length_cons, List.length_nil]
  rw [if_pos (by omega)]
  simp only [List.headD_cons]
  exact pyIntChars_natChars i

/-- Full round trip of a written line under the conditions that make the
log format injective: the question text contains no separator, and the
answer carries no trailing whitespace. -/
lemma parse_save_line (i : Nat) (q a : String) (hq : ';' ∉ q.data)
    (ha : List.rdropWhile pyWS a.data = a.data) :
    parse_answer_line (save_answer_line i q a) = some (Int.ofNat i, q, a) := by
  unfold parse_answer_line save_answer_line
  rw [show (String.mk (natChars i ++ ';' :: (q.data ++ ';' :: (a.data ++ ['\n'])))).data =
      natChars i ++ ';' :: (q.data ++ ';' :: (a.data ++ ['\n'])) from rfl]
  rw [stripChars_save_line, ha]
  have hmem : ';' ∈ natChars i ++ ';' :: (q.data ++ ';' :: a.data) := by simp
  have hne : natChars i ++ ';' :: (q.data ++ ';' :: a.data) ≠ [] := by simp
  rw [if_pos ⟨hne, hmem⟩]
  rw [split2Chars_exact (semi_not_mem_natChars i) hq]
  dsimp only
  rw [pyIntChars_natChars i]

/-! ### The resume-offset fold -/

lemma get_last_foldl :
    ∀ (lines : List String) (acc : Int),
      lines.foldl
        (fun last_id line =>
          match validIndex line with
          | some question_id => max last_id question_id
          | none => last_id)
        acc = (lines.filterMap validIndex).foldl max acc := by
  intro lines
  induction lines with
  | nil => intro acc; rfl
  | cons l t ih =>
    intro acc
    rw [List.foldl_cons, List.filterMap_cons]
    cases h : validIndex l with
    | none => exact ih acc
    | some v => exact ih (max acc v)

lemma get_last_eq_foldl (lines : List String) :
    get_last_answered_question lines = (lines.filterMap validIndex).foldl max 0 :=
  get_last_foldl lines 0

lemma le_foldl_max : ∀ (l : List Int) (b : Int), b ≤ l.foldl max b := by
  intro l
  induction l with
  | nil => intro b; exact le_refl b
  | cons x t ih =>
    intro b
    rw [List.foldl_cons]
    exact le_trans (le_max_left b x) (ih (max b x))

lemma foldl_max_le : ∀ (l : List Int) (b L : Int), b ≤ L → (∀ x ∈ l, x ≤ L) →
    l.foldl max b ≤ L := by
  intro l
  induction l with
  | nil => intro b L hb _; exact hb
  | cons x t ih =>
    intro b L hb h
    rw [List.foldl_cons]
    exact ih (max b x) L (max_le hb (h x (List.mem_cons_self x t)))
      fun y hy => h y (List.mem_cons_of_mem x hy)

lemma get_last_nonneg (lines : List String) : 0 ≤ get_last_answered_question lines := by
  rw [get_last_eq_foldl]
  exact le_foldl_max _ 0

/-! ### Idempotence of stripping -/

lemma dropWhile_rdropWhile_dropWhile (cs : List Char) :
    (List.rdropWhile pyWS (List.dropWhile pyWS cs)).dropWhile pyWS =
      List.rdropWhile pyWS (List.dropWhile pyWS cs) := by
  cases e : List.rdropWhile pyWS (List.dropWhile pyWS cs) with
  | nil => rfl
  | cons y t =>
    obtain ⟨s, hs⟩ : List.rdropWhile pyWS (List.dropWhile pyWS cs) <+:
        List.dropWhile pyWS cs := List.rdropWhile_prefix pyWS _
    have hu : List.dropWhile pyWS cs = y :: (t ++ s) := by
      rw [← hs, e]; rfl
    have hne : List.dropWhile pyWS cs ≠ [] := by rw [hu]; simp
    have hy : pyWS y = false := by
      have := List.head_dropWhile_not pyWS cs hne
      rwa [show (List.dropWhile pyWS cs).head hne = y by rw [List.head_eq_iff_head?_eq_some]; rw [hu]; rfl] at this
    simp [List.dropWhile_cons, hy]

lemma stripChars_idem (cs : List Char) : stripChars (stripChars cs) = stripChars cs := by
  unfold stripChars
  rw [dropWhile_rdropWhile_dropWhile, List.rdropWhile_idempotent]

lemma pyStrip_idem (s : String) : pyStrip (pyStrip s) = pyStrip s :=
  congrArg String.mk (stripChars_idem s.data)

/-! ### `load_questions` as filter-then-map -/

lemma load_questions_eq_map_filter :
    ∀ rawLines : List String,
      (load_questions rawLines).2 =
        (rawLines.filter fun l => pyStrip l ≠ "").map pyStrip := by
  intro rawLines
  induction rawLines with
  | nil => rfl
  | cons l t ih =>
    show (l :: t).filterMap (fun l => if pyStrip l = "" then none else some (pyStrip l)) =
      ((l :: t).filter fun l => pyStrip l ≠ "").map pyStrip
    rw [List.filterMap_cons, List.filter_cons]
    by_cases h : pyStrip l = "" <;> simp only [decide_not] at ih <;> simp [h] <;> exact ih

lemma mem_load_questions {rawLines : List String} {q : String}
    (hq : q ∈ (load_questions rawLines).2) : ∃ l ∈ rawLines, q = pyStrip l := by
  obtain ⟨l, hl, hf⟩ := List.mem_filterMap.mp hq
  by_cases h : pyStrip l = ""
  · rw [if_pos h] at hf; exact absurd hf (by simp)
  · rw [if_neg h] at hf
    exact ⟨l, hl, (Option.some_inj.mp hf).symm⟩

/-! ### The session loop -/

lemma runSession_head (ask : Nat → StepSignal) {n start : Nat} (h : start < n) :
    (runSession ask n start).1.head? = some start := by
  unfold runSession
  obtain ⟨d, hd⟩ : ∃ d, n - start = d + 1 := ⟨n - start - 1, by omega⟩
  rw [hd, List.range'_succ]
  cases hask : ask start <;> simp [runLoop, hask]


lemma runLoop_cons_continue {ask : Nat → StepSignal} {i : Nat} (rest : List Nat)
    (h : ask i = StepSignal.sContinue) :
    runLoop ask (i :: rest) = ((i :: (runLoop ask rest).1, (runLoop ask rest).2)) := by
  simp [runLoop, h]

lemma runLoop_cons_quit {ask : Nat → StepSignal} {i : Nat} (rest : List Nat)
    (h : ask i = StepSignal.sQuit) :
    runLoop ask (i :: rest) = ([i], SessionOutcome.QuitByUser) := by
  simp [runLoop, h]

lemma runLoop_cons_interrupt {ask : Nat → StepSignal} {i : Nat} (rest : List Nat)
    (h : ask i = StepSignal.sInterrupt) :
    runLoop ask (i :: rest) = ([i], SessionOutcome.InterruptedByUser) := by
  simp [runLoop, h]

/-- Full characterisation of the `for`/`break` loop over
`range(start, start + d)`: the asked indices are a consecutive run from
`start`; the loop completes iff every index in range continues; it stops
with the corresponding outcome exactly at the first index whose step
signals a stop. -/
lemma runLoop_spec (ask : Nat → StepSignal) :
    ∀ (d start : Nat),
      (runLoop ask (List.range' start d)).1 =
          List.range' start (runLoop ask (List.range' start d)).1.length
      ∧ (runLoop ask (List.range' start d)).1.length ≤ d
      ∧ ((runLoop ask (List.range' start d)).2 = SessionOutcome.Completed ↔
          ∀ i, start ≤ i → i < start + d → ask i = StepSignal.sContinue)
      ∧ ((runLoop ask (List.range' start d)).2 = SessionOutcome.Completed →
          (runLoop ask (List.range' start d)).1.length = d)
      ∧ ((runLoop ask (List.range' start d)).2 = SessionOutcome.QuitByUser ↔
          ∃ j, start ≤ j ∧ j < start + d ∧ ask j = StepSignal.sQuit ∧
            ∀ i, start ≤ i → i < j → ask i = StepSignal.sContinue)
      ∧ ((runLoop ask (List.range' start d)).2 = SessionOutcome.InterruptedByUser ↔
          ∃ j, start ≤ j ∧ j < start + d ∧ ask j = StepSignal.sInterrupt ∧
            ∀ i, start ≤ i → i < j → ask i = StepSignal.sContinue) := by
  intro d
  induction d with
  | zero =>
    intro start
    have h0 : runLoop ask (List.range' start 0) = ([], SessionOutcome.Completed) := rfl
    rw [h0]
    refine ⟨rfl, le_refl 0, ?_, fun _ => rfl, ?_, ?_⟩
    · exact ⟨fun _ i h1 h2 => by omega, fun _ => rfl⟩
    · exact ⟨fun h => absurd h (by decide), fun ⟨j, h1, h2, _⟩ => by omega⟩
    · exact ⟨fun h => absurd h (by decide), fun ⟨j, h1, h2, _⟩ => by omega⟩
  | succ d ih =>
    intro start
    rw [List.range'_succ]
    obtain ⟨ih1, ih2, ih3, ih4, ih5, ih6⟩ := ih (start + 1)
    cases hask : ask start with
    | sContinue =>
      rw [runLoop_cons_continue _ hask]
      refine ⟨?_, ?_, ?_, ?_, ?_, ?_⟩
      · show start :: (runLoop ask (List.range' (start + 1) d)).1 =
          List.range' start (start :: (runLoop ask (List.range' (start + 1) d)).1).length
        rw [List.length_cons, List.range'_succ]
        exact congrArg (List.cons start) ih1
      · show (start :: (runLoop ask (List.range' (start + 1) d)).1).length ≤ d + 1
        rw [List.length_cons]
        omega
      · show (runLoop ask (List.range' (start + 1) d)).2 = SessionOutcome.Completed ↔ _
        rw [ih3]
        constructor
        · intro hAll i h1 h2
          by_cases hi : i = start
          · rw [hi]; exact hask
          · exact hAll i (by omega) (by omega)
        · intro hAll i h1 h2
          exact hAll i (by omega) (by omega)
      · intro h
        show (start :: (runLoop ask (List.range' (start + 1) d)).1).length = d + 1
        rw [List.length_cons, ih4 h]
      · show (runLoop ask (List.range' (start + 1) d)).2 = SessionOutcome.QuitByUser ↔ _
        rw [ih5]
        constructor
        · rintro ⟨j, h1, h2, hq, hbef⟩
          refine ⟨j, by omega, by omega, hq, fun i hi1 hi2 => ?_⟩
          by_cases hi : i = start
          · rw [hi]; exact hask
          · exact hbef i (by omega) hi2
        · rintro ⟨j, h1, h2, hq, hbef⟩
          have hj : start + 1 ≤ j := by
            rcases Nat.eq_or_lt_of_le h1 with he | hlt
            · exfalso; rw [← he] at hq; rw [hask] at hq; exact absurd hq (by decide)
            · omega
          exact ⟨j, hj, by omega, hq, fun i hi1 hi2 => hbef i (by omega) hi2⟩
      · show (runLoop ask (List.range' (start + 1) d)).2 = SessionOutcome.InterruptedByUser ↔ _
        rw [ih6]
        constructor
        · rintro ⟨j, h1, h2, hq, hbef⟩
          refine ⟨j, by omega, by omega, hq, fun i hi1 hi2 => ?_⟩
          by_cases hi : i = start
          · rw [hi]; exact hask
          · exact hbef i (by omega) hi2
        · rintro ⟨j, h1, h2, hq, hbef⟩
          have hj : start + 1 ≤ j := by
            rcases Nat.eq_or_lt_of_le h1 with he | hlt
            · exfalso; rw [← he] at hq; rw [hask] at hq; exact absurd hq (by decide)
            · omega
          exact ⟨j, hj, by omega, hq, fun i hi1 hi2 => hbef i (by omega) hi2⟩
    | sQuit =>
      rw [runLoop_cons_quit _ hask]
      refine ⟨rfl, by simp, ?_, ?_, ?_, ?_⟩
      · constructor
        · intro h; simp at h
        · intro hAll
          have hc := hAll start (le_refl start) (by omega)
          rw [hask] at hc
          exact absurd hc (by decide)
      · intro h; simp at h
      · constructor
        · intro _
          exact ⟨start, le_refl start, by omega, hask, fun i h1 h2 => by omega⟩
        · intro _; rfl
      · constructor
        · intro h; simp at h
        · rintro ⟨j, h1, h2, hq, hbef⟩
          rcases Nat.eq_or_lt_of_le h1 with he | hlt
          · exfalso; rw [← he] at hq; rw [hask] at hq; exact absurd hq (by decide)
          · have hc := hbef start (le_refl start) hlt
            rw [hask] at hc
            exact absurd hc (by decide)
    | sInterrupt =>
      rw [runLoop_cons_interrupt _ hask]
      refine ⟨rfl, by simp, ?_, ?_, ?_, ?_⟩
      · constructor
        · intro h; simp at h
        · intro hAll
          have hc := hAll start (le_refl start) (by omega)
          rw [hask] at hc
          exact absurd hc (by decide)
      · intro h; simp at h
      · constructor
        · intro h; simp at h
        · rintro ⟨j, h1, h2, hq, hbef⟩
          rcases Nat.eq_or_lt_of_le h1 with he | hlt
          · exfalso; rw [← he] at hq; rw [hask] at hq; exact absurd hq (by decide)
          · have hc := hbef start (le_refl start) hlt
            rw [hask] at hc
            exact absurd hc (by decide)
      · constructor
        · intro _
          exact ⟨start, le_refl start, by omega, hask, fun i h1 h2 => by omega⟩
        · intro _; rfl

lemma get_last_perm {l₁ l₂ : List String} (hp : l₁.Perm l₂) :
    get_last_answered_question l₁ = get_last_answered_question l₂ := by
  rw [get_last_eq_foldl, get_last_eq_foldl]
  exact List.Perm.foldl_eq' (hp.filterMap validIndex)
    (fun x _ y _ z => Max.right_comm z x y) 0

/-! ### Claims -/

/-- Claim C1 (corrected).  `computeResumeOffset` is the fold of `max` over
the parsed first fields of the valid lines, starting from 0; it is
order-independent and returns 0 on an absent or record-free log.  The
original claim's characterisation of the skipped lines ("blank, lack a
separator, or first field not an integer") is incomplete — a line with a
separator but fewer than three fields, such as `"5;x"`, is also skipped
(see the counterexample) — and a negative first field is clamped by the
initial 0. -/
theorem get_last_max_spec (l₁ l₂ : List String) (hp : l₁.Perm l₂) :
    get_last_answered_question l₁ = (l₁.filterMap validIndex).foldl max 0
    ∧ get_last_answered_question l₁ = get_last_answered_question l₂
    ∧ 0 ≤ get_last_answered_question l₁
    ∧ get_last_answered_question ([] : List String) = 0 :=
  ⟨get_last_eq_foldl l₁, get_last_perm hp, get_last_nonneg l₁, rfl⟩

/-- Witness for C1: records with indices 0, 1, 2 in two different orders
both give resume offset 2. -/
theorem get_last_max_spec_witness :
    (["2;b;c", "0;a;x", "1;q;w"] : List String).Perm ["0;a;x", "1;q;w", "2;b;c"]
    ∧ get_last_answered_question ["2;b;c", "0;a;x", "1;q;w"] = 2
    ∧ get_last_answered_question ["2;b;c", "0;a;x", "1;q;w"] =
        get_last_answered_question ["0;a;x", "1;q;w", "2;b;c"] :=
  ⟨by decide, by decide,
    (get_last_max_spec ["2;b;c", "0;a;x", "1;q;w"] ["0;a;x", "1;q;w", "2;b;c"]
      (by decide)).2.1⟩

/-- Counterexample for C1 as stated: the line `"5;x"` is not blank, has a
separator, and its first field `"5"` is a valid integer, so by the claim
it should contribute 5 to the maximum; but the code also requires at
least three fields after `split(';', 2)`, so the line is skipped and the
result is 0. -/
theorem get_last_counterexample :
    stripChars ("5;x".data) ≠ []
    ∧ ';' ∈ stripChars ("5;x".data)
    ∧ pyIntChars ((split2Chars ';' (stripChars "5;x".data)).headD []) = some 5
    ∧ get_last_answered_question ["5;x"] = 0 := by
  refine ⟨by decide, by decide, by decide, by decide⟩

/-- Claim C2 (confirmed).  When the maximum recorded index in the log is
`k` and `k` is in range, a session started from that log begins asking at
index `k` itself — the stored last-answered index is reused as the start
index, re-asking that question — not at `k + 1`. -/
theorem resume_reasks_last_index (logLines questions : List String)
    (ask : Nat → StepSignal) (k : Nat)
    (hmax : get_last_answered_question logLines = (k : Int))
    (hk : k < questions.length) :
    session_start_index logLines = k
    ∧ (∃ r, start_questionnaire_session questions logLines ask = some r
        ∧ r.1.head? = some k
        ∧ r.1.head? ≠ some (k + 1)) := by
  have hs : session_start_index logLines = k := by
    unfold session_start_index
    rw [hmax]
    exact Int.toNat_natCast k
  refine ⟨hs, ⟨runSession ask questions.length (session_start_index logLines), ?_, ?_, ?_⟩⟩
  · unfold start_questionnaire_session
    rw [if_neg (by
      intro he
      rw [List.isEmpty_iff] at he
      rw [he] at hk
      exact absurd hk (by simp))]
  · rw [hs]
    exact runSession_head ask hk
  · rw [hs, runSession_head ask hk]
    simp

/-- Witness for C2: the spec's Scenario B — a log holding exactly
`"0;1. A?;I like A"` resumes at index 0 (the already-answered question),
not index 1. -/
theorem resume_reasks_last_index_witness :
    get_last_answered_question ["0;1. A?;I like A"] = (0 : Int)
    ∧ (0 : Nat) < (["1. A?", "2. B?", "3. C?"] : List String).length
    ∧ session_start_index ["0;1. A?;I like A"] = 0
    ∧ (∃ r, start_questionnaire_session ["1. A?", "2. B?", "3. C?"] ["0;1. A?;I like A"]
          (fun _ => StepSignal.sContinue) = some r
        ∧ r.1.head? = some 0
        ∧ r.1.head? ≠ some 1) :=
  ⟨by decide, by decide,
    (resume_reasks_last_index ["0;1. A?;I like A"] ["1. A?", "2. B?", "3. C?"]
      (fun _ => StepSignal.sContinue) 0 (by decide) (by decide)).1,
    (resume_reasks_last_index ["0;1. A?;I like A"] ["1. A?", "2. B?", "3. C?"]
      (fun _ => StepSignal.sContinue) 0 (by decide) (by decide)).2⟩

/-- Claim C3 (corrected).  The round trip write-then-parse recovers the
record exactly — including a `';'` embedded in the answer — provided the
question text contains no `';'`, neither field contains a line break, and
the answer does not end in whitespace.  Without those conditions the
round trip fails (see the counterexample): a `';'` in the question shifts
the field boundaries, and trailing whitespace of the answer is removed by
the parser's `strip()`. -/
theorem roundtrip_amended (i : Nat) (q a : String)
    (hq : ';' ∉ q.data)
    (_hq1 : '\n' ∉ q.data) (_hq2 : '\r' ∉ q.data)
    (_ha1 : '\n' ∉ a.data) (_ha2 : '\r' ∉ a.data)
    (ha : List.rdropWhile pyWS a.data = a.data) :
    parse_answer_line (save_answer_line i q a) = some ((i : Int), q, a) :=
  parse_save_line i q a hq ha

/-- Witness for C3: a record whose answer embeds `';'` survives the round
trip unchanged. -/
theorem roundtrip_amended_witness :
    (';' ∉ ("Is it ok?" : String).data)
    ∧ List.rdropWhile pyWS ("yes; definitely" : String).data =
        ("yes; definitely" : String).data
    ∧ parse_answer_line (save_answer_line 3 "Is it ok?" "yes; definitely") =
        some (3, "Is it ok?", "yes; definitely") :=
  ⟨by decide, by decide,
    roundtrip_amended 3 "Is it ok?" "yes; definitely" (by decide) (by decide) (by decide)
      (by decide) (by decide) (by decide)⟩

/-- Counterexample for C3 as stated: for the question `"a;b"` (which
contains the separator) and answer `"c"`, the re-parsed record is
`(0, "a", "b;c")`, not `(0, "a;b", "c")` — the claim's universal
quantification over every question text fails. -/
theorem roundtrip_counterexample :
    parse_answer_line (save_answer_line 0 "a;b" "c") = some (0, "a", "b;c")
    ∧ parse_answer_line (save_answer_line 0 "a;b" "c") ≠ some (0, "a;b", "c") := by
  refine ⟨by decide, by decide⟩

/-- Claim C4 (corrected).  A `QUIT` input in any letter case makes
`ask_question` signal session stop (`False`) without appending anything:
the log is returned exactly as it was after the last completed append.
The original claim's "resumable from this same index on the next run" is
corrected: the next run derives its start index from the unchanged log as
the maximum recorded index (or 0), which re-asks the last answered
question and can be smaller than the index that was being asked when the
user quit (see the counterexample). -/
theorem quit_aborts_without_saving (questions : List String) (question_index : Nat)
    (log : List String) (u : String) (rest : List String)
    (h : pyUpper (pyStrip u) = "QUIT") :
    ask_question questions question_index log (u :: rest) = some (false, log)
    ∧ ∀ ask (k : Nat), get_last_answered_question log = (k : Int) →
        k < questions.length →
        ∃ r, start_questionnaire_session questions log ask = some r
          ∧ r.1.head? = some k := by
  constructor
  · show (if pyUpper (pyStrip u) = "QUIT" then some (false, log) else _) = some (false, log)
    rw [if_pos h]
  · intro ask k hk hlt
    obtain ⟨_, r, hr, hhead, _⟩ := resume_reasks_last_index log questions ask k hk hlt
    exact ⟨r, hr, hhead⟩

/-- Witness for C4: `" qUiT "` (mixed case, surrounding whitespace) stops
the session and leaves the log untouched. -/
theorem quit_aborts_without_saving_witness :
    pyUpper (pyStrip " qUiT ") = "QUIT"
    ∧ ask_question ["A?", "B?"] 1 ["0;A?;x\n"] [" qUiT "] = some (false, ["0;A?;x\n"]) :=
  ⟨by decide,
    (quit_aborts_without_saving ["A?", "B?"] 1 ["0;A?;x\n"] " qUiT " [] (by decide)).1⟩

/-- Counterexample for C4 as stated: quit while question index 1 is being
asked, with the log holding the completed record for index 0.  No index-1
record is written and the log is unchanged — but the next run starts at
index 0 (the maximum recorded index), not at "this same index" 1. -/
theorem quit_resume_counterexample :
    ask_question ["A?", "B?"] 1 [save_answer_line 0 "A?" "x"] ["QUIT"]
      = some (false, [save_answer_line 0 "A?" "x"])
    ∧ session_start_index [save_answer_line 0 "A?" "x"] = 0
    ∧ start_questionnaire_session ["A?", "B?"] [save_answer_line 0 "A?" "x"]
        (fun _ => StepSignal.sContinue)
      = some ([0, 1], SessionOutcome.Completed)
    ∧ (0 : Nat) ≠ 1 := by
  refine ⟨by decide, by decide, by decide, by decide⟩

/-- Claim C5 (confirmed).  `runSession` invokes the step function exactly
on the consecutive indices from `resumeOffset` upward and within
`len(questions)`; it completes iff every index in `[resumeOffset,
len)` signals continue (and then asks all of them); it returns
`QuitByUser` / `InterruptedByUser` exactly when some first stopping index
signals the corresponding stop, asking nothing after it; and
`resumeOffset ≥ len(questions)` yields `Completed` with nothing asked —
a valid outcome, not an error. -/
theorem runSession_correct (ask : Nat → StepSignal) (n start : Nat) :
    (runSession ask n start).1 = List.range' start (runSession ask n start).1.length
    ∧ (runSession ask n start).1.length ≤ n - start
    ∧ ((runSession ask n start).2 = SessionOutcome.Completed ↔
        ∀ i, start ≤ i → i < n → ask i = StepSignal.sContinue)
    ∧ ((runSession ask n start).2 = SessionOutcome.Completed →
        (runSession ask n start).1.length = n - start)
    ∧ ((runSession ask n start).2 = SessionOutcome.QuitByUser ↔
        ∃ j, start ≤ j ∧ j < n ∧ ask j = StepSignal.sQuit ∧
          ∀ i, start ≤ i → i < j → ask i = StepSignal.sContinue)
    ∧ ((runSession ask n start).2 = SessionOutcome.InterruptedByUser ↔
        ∃ j, start ≤ j ∧ j < n ∧ ask j = StepSignal.sInterrupt ∧
          ∀ i, start ≤ i → i < j → ask i = StepSignal.sContinue)
    ∧ (n ≤ start →
        (runSession ask n start).2 = SessionOutcome.Completed
        ∧ (runSession ask n start).1 = []) := by
  obtain ⟨h1, h2, h3, h4, h5, h6⟩ := runLoop_spec ask (n - start) start
  rcases le_or_lt start n with hle | hlt
  · rw [Nat.add_sub_cancel' hle] at h3 h5 h6
    refine ⟨h1, h2, h3, h4, h5, h6, ?_⟩
    intro hns
    have h0 : n - start = 0 := Nat.sub_eq_zero_of_le hns
    have hrl : runSession ask n start = ([], SessionOutcome.Completed) := by
      unfold runSession
      rw [h0]
      rfl
    rw [hrl]
    exact ⟨rfl, rfl⟩
  · have h0 : n - start = 0 := Nat.sub_eq_zero_of_le (le_of_lt hlt)
    have hrl : runSession ask n start = ([], SessionOutcome.Completed) := by
      unfold runSession
      rw [h0]
      rfl
    rw [hrl]
    refine ⟨rfl, by simp, ?_, fun _ => h0.symm, ?_, ?_, fun _ => ⟨rfl, rfl⟩⟩
    · exact ⟨fun _ i hi1 hi2 => absurd hi2 (not_lt.mpr (le_of_lt (lt_of_lt_of_le hlt hi1))),
        fun _ => rfl⟩
    · exact ⟨fun h => absurd h (by decide),
        fun ⟨j, hj1, hj2, _⟩ => absurd hj2 (not_lt.mpr (le_of_lt (lt_of_lt_of_le hlt hj1)))⟩
    · exact ⟨fun h => absurd h (by decide),
        fun ⟨j, hj1, hj2, _⟩ => absurd hj2 (not_lt.mpr (le_of_lt (lt_of_lt_of_le hlt hj1)))⟩

/-- Witness for C5: with three questions and no stop signal the loop asks
indices 0, 1, 2 and completes; the degenerate start 5 ≥ 3 also completes
while asking nothing. -/
theorem runSession_correct_witness :
    (runSession (fun _ => StepSignal.sContinue) 3 0).2 = SessionOutcome.Completed
    ∧ (runSession (fun _ => StepSignal.sContinue) 3 0).1 = [0, 1, 2]
    ∧ (runSession (fun _ => StepSignal.sContinue) 3 5).2 = SessionOutcome.Completed
    ∧ (runSession (fun _ => StepSignal.sContinue) 3 5).1 = [] :=
  ⟨(runSession_correct (fun _ => StepSignal.sContinue) 3 0).2.2.1.mpr
      (fun i hi1 hi2 => rfl),
    by decide,
    ((runSession_correct (fun _ => StepSignal.sContinue) 3 5).2.2.2.2.2.2 (by decide)).1,
    ((runSession_correct (fun _ => StepSignal.sContinue) 3 5).2.2.2.2.2.2 (by decide)).2⟩

/-- Claim C6 (corrected).  `loadQuestions` discards exactly the blank
(empty after stripping) lines, keeps the surviving lines in order
(stripped), and its output length is the number of non-blank input lines.
But on an empty result `load_questions` itself does not fail: it returns
success (with "Loaded 0 questions"); the empty-question failure is
signalled later by `start_questionnaire_session`, which refuses to start
exactly when the loaded sequence is empty (see the counterexample). -/
theorem load_questions_contract (rawLines : List String) :
    (load_questions rawLines).1 = true
    ∧ (load_questions rawLines).2 = (rawLines.filter fun l => pyStrip l ≠ "").map pyStrip
    ∧ (load_questions rawLines).2.length = (rawLines.filter fun l => pyStrip l ≠ "").length
    ∧ (session_starts (load_questions rawLines).2 = false ↔ (load_questions rawLines).2 = []) := by
  refine ⟨rfl, load_questions_eq_map_filter rawLines, ?_, ?_⟩
  · rw [load_questions_eq_map_filter rawLines, List.length_map]
  · simp [session_starts, List.isEmpty_iff]

/-- Witness for C6. -/
theorem load_questions_contract_witness :
    (load_questions ["a", " ", "b"]).1 = true
    ∧ (load_questions ["a", " ", "b"]).2 = ["a", "b"] :=
  ⟨(load_questions_contract ["a", " ", "b"]).1, by decide⟩

/-- Counterexample for C6 as stated: an input of blank lines only yields an
empty question list, yet `load_questions` reports success (`True`), not a
load failure; the refusal happens only at session start. -/
theorem load_empty_counterexample :
    (load_questions ["", "   "]).2 = []
    ∧ (load_questions ["", "   "]).1 = true
    ∧ session_starts (load_questions ["", "   "]).2 = false := by
  refine ⟨by decide, rfl, by decide⟩

/-- Claim C7 (corrected).  For an input that makes `ask_question` continue,
the persisted record's question field is the original stored question text
(`self.questions[question_index]`, not the display-stripped form), and the
answer field is the sentinel `"[SKIPPED]"` for a case-insensitive `SKIP`
and otherwise the input *stripped of surrounding whitespace* — not the
input verbatim, which the original claim asserted (see the
counterexample; the two coincide exactly when the input carries no
leading or trailing whitespace). -/
theorem ask_question_records (questions : List String) (question_index : Nat)
    (log : List String) (u : String) (rest : List String)
    (h : question_index < questions.length) :
    (pyUpper (pyStrip u) = "SKIP" →
      ask_question questions question_index log (u :: rest)
        = some (true, save_answer log question_index
            (questions.get ⟨question_index, h⟩) "[SKIPPED]"))
    ∧ (pyUpper (pyStrip u) ≠ "QUIT" → pyUpper (pyStrip u) ≠ "SKIP" → pyStrip u ≠ "" →
      ask_question questions question_index log (u :: rest)
        = some (true, save_answer log question_index
            (questions.get ⟨question_index, h⟩) (pyStrip u))) := by
  have hg : questions.getD question_index "" = questions.get ⟨question_index, h⟩ :=
    List.getD_eq_getElem questions "" h
  constructor
  · intro hs
    have hquit : ¬pyUpper (pyStrip u) = "QUIT" := by rw [hs]; decide
    show (if pyUpper (pyStrip u) = "QUIT" then some (false, log)
      else if pyUpper (pyStrip u) = "SKIP" then
        some (true, save_answer log question_index
          (questions.getD question_index "") "[SKIPPED]")
      else if pyStrip u = "" then ask_question questions question_index log rest
      else some (true, save_answer log question_index
        (questions.getD question_index "") (pyStrip u))) = _
    rw [if_neg hquit, if_pos hs, hg]
  · intro hq hs hne
    show (if pyUpper (pyStrip u) = "QUIT" then some (false, log)
      else if pyUpper (pyStrip u) = "SKIP" then
        some (true, save_answer log question_index
          (questions.getD question_index "") "[SKIPPED]")
      else if pyStrip u = "" then ask_question questions question_index log rest
      else some (true, save_answer log question_index
        (questions.getD question_index "") (pyStrip u))) = _
    rw [if_neg hq, if_neg hs, if_neg hne, hg]

/-- Witness for C7: `" sKiP "` records the sentinel against the original
prefixed question text `"1. A?"`, whose display form `"A?"` differs. -/
theorem ask_question_records_witness :
    pyUpper (pyStrip " sKiP ") = "SKIP"
    ∧ ask_question ["1. A?"] 0 [] [" sKiP "]
        = some (true, save_answer [] 0 "1. A?" "[SKIPPED]")
    ∧ display_text "1. A?" = "A?"
    ∧ display_text "1. A?" ≠ "1. A?" :=
  ⟨by decide,
    (ask_question_records ["1. A?"] 0 [] " sKiP " [] (by decide)).1 (by decide),
    by decide, by decide⟩

/-- Counterexample for C7 as stated: the continuing input `" hi "` is
recorded as `"hi"`, not verbatim. -/
theorem ask_question_verbatim_counterexample :
    ask_question ["Q"] 0 [] [" hi "] = some (true, [save_answer_line 0 "Q" "hi"])
    ∧ ask_question ["Q"] 0 [] [" hi "] ≠ some (true, [save_answer_line 0 "Q" " hi "]) := by
  refine ⟨by decide, by decide⟩

/-- Claim C8 (confirmed).  In any log state reachable by running sessions
over a fixed question list — every log line written by `appendAnswer` for
some in-range question index — the recomputed resume offset is at most
`len(questions)`. -/
theorem resume_offset_invariant (questions log : List String)
    (h : ∀ line ∈ log, ∃ i q a, i < questions.length ∧ line = save_answer_line i q a) :
    session_start_index log ≤ questions.length := by
  unfold session_start_index
  have hnn := get_last_nonneg log
  have hb : get_last_answered_question log ≤ (questions.length : Int) := by
    rw [get_last_eq_foldl]
    apply foldl_max_le
    · exact Int.natCast_nonneg _
    · intro x hx
      obtain ⟨line, hline, hv⟩ := List.mem_filterMap.mp hx
      obtain ⟨i, q, a, hi, hform⟩ := h line hline
      rw [hform, validIndex_save] at hv
      have hx' : x = Int.ofNat i := (Option.some_inj.mp hv).symm
      rw [hx', Int.ofNat_eq_natCast]
      exact_mod_cast le_of_lt hi
  omega

/-- Witness for C8: a log of two appended records over a two-question
list has resume offset at most 2. -/
theorem resume_offset_invariant_witness :
    session_start_index [save_answer_line 0 "A?" "x", save_answer_line 1 "B?" "y"] ≤
      (["A?", "B?"] : List String).length :=
  resume_offset_invariant ["A?", "B?"]
    [save_answer_line 0 "A?" "x", save_answer_line 1 "B?" "y"]
    (by
      intro line hl
      rcases List.mem_cons.mp hl with h1 | hl2
      · exact ⟨0, "A?", "x", by decide, h1⟩
      · rcases List.mem_cons.mp hl2 with h2 | h3
        · exact ⟨1, "B?", "y", by decide, h2⟩
        · exact absurd h3 (List.not_mem_nil line))

/-- Claim C9 (confirmed).  An empty input makes `ask_question` re-prompt
the same question index with the log untouched: consuming the empty input
is exactly a self-loop back to the same prompting state, and an empty
input followed by nothing leaves the question unanswered and the log
unchanged rather than raising an error. -/
theorem empty_input_reprompts (questions : List String) (question_index : Nat)
    (log rest : List String) :
    ask_question questions question_index log ("" :: rest)
      = ask_question questions question_index log rest
    ∧ ask_question questions question_index log [""] = none :=
  ⟨rfl, rfl⟩

/-- Claim C10 (confirmed).  Every question produced by `loadQuestions` is
the whitespace-trimmed form of its surviving input line (order
preserved), so no loaded question — and hence no question text later
persisted from the list — begins or ends with whitespace. -/
theorem load_questions_trimmed (rawLines : List String) :
    (load_questions rawLines).2 = (rawLines.filter fun l => pyStrip l ≠ "").map pyStrip
    ∧ ∀ q ∈ (load_questions rawLines).2, pyStrip q = q := by
  refine ⟨load_questions_eq_map_filter rawLines, ?_⟩
  intro q hq
  obtain ⟨l, _, hl⟩ := mem_load_questions hq
  rw [hl]
  exact pyStrip_idem l

/-- Witness for C10. -/
theorem load_questions_trimmed_witness :
    (load_questions ["  1. A?  ", "", "x "]).2 = ["1. A?", "x"]
    ∧ pyStrip "1. A?" = "1. A?" :=
  ⟨by decide, (load_questions_trimmed ["  1. A?  ", "", "x "]).2 "1. A?" (by decide)⟩
